import Mathlib

/-!
Verification of the expression-evaluation engine and keypad state machine of
the `jannat` calculator (src/App.tsx, src/types.ts).

Strings are modelled as Lean `String`s (lists of characters); every JavaScript
string operation used by the source (`replace` with a global literal pattern,
`endsWith`, `slice`, counting characters) acts on UTF-16 code units, and every
character occurring in this program (including `×`, `÷`, `π`, `√`) is a single
UTF-16 code unit, so the `List Char` model is exact.

The dynamic-code-generation evaluator (`new Function`), the `toPrecision`
formatter and `parseFloat` are external JavaScript semantics not present in the
source tree; they are modelled from the spec where noted on each definition.
-/

/-- The apostrophe character, used to build the divide-by-zero label. -/
def apos : Char := Char.ofNat 39

/-- Error label from src/App.tsx: returned for syntax errors. -/
def invalidFormatLabel : String := "Invalid format"

/-- Error label from src/App.tsx: returned for NaN results. -/
def invalidInputLabel : String := "Invalid input"

/-- Error label from src/App.tsx: structural division-by-zero. -/
def divZeroLabel : String :=
  ⟨[ 'C', 'a', 'n', apos, 't', ' ', 'd', 'i', 'v', 'i', 'd', 'e', ' ',
     'b', 'y', ' ', 'z', 'e', 'r', 'o']⟩

/-- Error label from src/App.tsx: returned for infinite results. -/
def overflowLabel : String := "Value too large"

/-- Error label from src/App.tsx: returned for other evaluation faults. -/
def genericErrorLabel : String := "Error"

/-- The error-state test used at every call site in src/App.tsx:
`["Invalid format", "Invalid input", "Can't divide by zero", "Value too large",
"Error"].includes(s)`. -/
def isErrLabel (s : String) : Bool :=
  decide (s = invalidFormatLabel) || decide (s = invalidInputLabel) ||
  decide (s = divZeroLabel) || decide (s = overflowLabel) ||
  decide (s = genericErrorLabel)

/-- `pfx pat l` : `pat` is a prefix of `l` (JavaScript `startsWith`). -/
def pfx : List Char → List Char → Bool
  | [], _ => true
  | _ :: _, [] => false
  | a :: as, b :: bs => decide (a = b) && pfx as bs

/-- `sfxTok l tok` : `tok` is a suffix of `l` (JavaScript `endsWith`). -/
def sfxTok (l tok : List Char) : Bool :=
  pfx tok.reverse l.reverse

/-- `containsSub pat l` : `pat` occurs as a contiguous substring of `l`
(JavaScript regex alternative on a literal word). -/
def containsSub (pat : List Char) : List Char → Bool
  | [] => pfx pat []
  | c :: rest => pfx pat (c :: rest) || containsSub pat rest

/-- Fuel-indexed global literal replacement; mirrors JavaScript
`s.replace(/pat/g, repl)` for a literal pattern: scan left to right, replace
non-overlapping occurrences, never rescan replacement text. -/
def replF : Nat → List Char → List Char → List Char → List Char
  | 0, _, _, s => s
  | f + 1, pat, repl, s =>
    match s with
    | [] => []
    | c :: rest =>
      if pat ≠ [] ∧ pfx pat (c :: rest) = true then
        repl ++ replF f pat repl ((c :: rest).drop pat.length)
      else
        c :: replF f pat repl rest

/-- JavaScript `s.replace(/pat/g, repl)` for a literal pattern `pat`. -/
def replaceAll (pat repl s : List Char) : List Char :=
  replF s.length pat repl s

/-- Number of occurrences of a character (the `match(/\(/g).length` counts). -/
def countCh (c : Char) (s : List Char) : Nat :=
  s.foldl (fun n a => if a = c then n + 1 else n) 0

/-- Lookahead test of `/\/0(?!\.)/`: somewhere in the string, `/0` not
followed by a dot. -/
def hitSlashZero : List Char → Bool
  | '0' :: r2 =>
    match r2 with
    | '.' :: _ => false
    | _ => true
  | _ => false

/-- `/\/0(?!\.)/.test s` from src/App.tsx line 140. -/
def m1 : List Char → Bool
  | [] => false
  | c :: rest => (decide (c = '/') && hitSlashZero rest) || m1 rest

/-- After `/0.`, skip zeros, then require end of string or `+ - * /`
(the `0*($|[+\-*\/])` tail of the second regex). -/
def zeroTail : List Char → Bool
  | [] => true
  | '0' :: r => zeroTail r
  | c :: _ => decide (c = '+') || decide (c = '-') || decide (c = '*') || decide (c = '/')

/-- Body test used by `m2`: `0.` then `zeroTail`. -/
def hitZeroDot : List Char → Bool
  | '0' :: '.' :: r => zeroTail r
  | _ => false

/-- `/\/0\.0*($|[+\-*\/])/.test s` from src/App.tsx line 140. -/
def m2 : List Char → Bool
  | [] => false
  | c :: rest => (decide (c = '/') && hitZeroDot rest) || m2 rest

/-- The structural divide-by-zero pre-check of src/App.tsx line 140. -/
def divZeroPre (l : List Char) : Bool :=
  m1 l || m2 l

/-- The glyph/function/constant replacement chain of src/App.tsx lines
117-130, in source order, followed by the parenthesis auto-balancing of lines
133-137. -/
def canonical (l : List Char) : List Char :=
  let s1 := replaceAll ([ '×']) ([ '*']) l
  let s2 := replaceAll ([ '÷']) ([ '/']) s1
  let s3 := replaceAll ([ '%']) (("/100").data) s2
  let s4 := replaceAll ([ 'π']) (("Math.PI").data) s3
  let s5 := replaceAll ([ 'e']) (("Math.E").data) s4
  let s6 := replaceAll (("sin(").data) (("trigSin(").data) s5
  let s7 := replaceAll (("cos(").data) (("trigCos(").data) s6
  let s8 := replaceAll (("tan(").data) (("trigTan(").data) s7
  let s9 := replaceAll (("log(").data) (("Math.log10(").data) s8
  let s10 := replaceAll (("ln(").data) (("Math.log(").data) s9
  let s11 := replaceAll (("√(").data) (("Math.sqrt(").data) s10
  let s12 := replaceAll ([ '^']) ([ '*', '*']) s11
  s12 ++ List.replicate (countCh ('(') s12 - countCh (')') s12) (')')

/-- A JavaScript number outcome: a finite value (modelled exactly as a
rational), one of the two infinities, or NaN. -/
inductive JsVal where
  | num (q : ℚ)
  | inf
  | negInf
  | nan
deriving DecidableEq

/-- Modelled from the spec: JavaScript `-x` on the number domain. -/
def jneg : JsVal → JsVal
  | JsVal.num a => JsVal.num (-a)
  | JsVal.inf => JsVal.negInf
  | JsVal.negInf => JsVal.inf
  | JsVal.nan => JsVal.nan

/-- Modelled from the spec: JavaScript `+` on the number domain (finite
arithmetic taken exact; `∞ + (-∞) = NaN`). -/
def jadd : JsVal → JsVal → JsVal
  | JsVal.num a, JsVal.num b => JsVal.num (a + b)
  | JsVal.nan, _ => JsVal.nan
  | _, JsVal.nan => JsVal.nan
  | JsVal.inf, JsVal.negInf => JsVal.nan
  | JsVal.negInf, JsVal.inf => JsVal.nan
  | JsVal.inf, _ => JsVal.inf
  | _, JsVal.inf => JsVal.inf
  | JsVal.negInf, _ => JsVal.negInf
  | _, JsVal.negInf => JsVal.negInf

/-- Modelled from the spec: JavaScript binary `-`. -/
def jsub (a b : JsVal) : JsVal :=
  jadd a (jneg b)

/-- Modelled from the spec: JavaScript `*` (`0 * ∞ = NaN`, signed infinities). -/
def jmul : JsVal → JsVal → JsVal
  | JsVal.num a, JsVal.num b => JsVal.num (a * b)
  | JsVal.nan, _ => JsVal.nan
  | _, JsVal.nan => JsVal.nan
  | JsVal.inf, JsVal.inf => JsVal.inf
  | JsVal.inf, JsVal.negInf => JsVal.negInf
  | JsVal.negInf, JsVal.inf => JsVal.negInf
  | JsVal.negInf, JsVal.negInf => JsVal.inf
  | JsVal.inf, JsVal.num b =>
    if b = 0 then JsVal.nan else if 0 < b then JsVal.inf else JsVal.negInf
  | JsVal.num a, JsVal.inf =>
    if a = 0 then JsVal.nan else if 0 < a then JsVal.inf else JsVal.negInf
  | JsVal.negInf, JsVal.num b =>
    if b = 0 then JsVal.nan else if 0 < b then JsVal.negInf else JsVal.inf
  | JsVal.num a, JsVal.negInf =>
    if a = 0 then JsVal.nan else if 0 < a then JsVal.negInf else JsVal.inf

/-- Modelled from the spec: JavaScript `/` (division by zero produces a signed
infinity, `0 / 0 = NaN`; negative zero is not reachable in this grammar). -/
def jdiv : JsVal → JsVal → JsVal
  | JsVal.num a, JsVal.num b =>
    if b = 0 then
      if a = 0 then JsVal.nan else if 0 < a then JsVal.inf else JsVal.negInf
    else JsVal.num (a / b)
  | JsVal.nan, _ => JsVal.nan
  | _, JsVal.nan => JsVal.nan
  | JsVal.inf, JsVal.inf => JsVal.nan
  | JsVal.inf, JsVal.negInf => JsVal.nan
  | JsVal.negInf, JsVal.inf => JsVal.nan
  | JsVal.negInf, JsVal.negInf => JsVal.nan
  | JsVal.num _, JsVal.inf => JsVal.num 0
  | JsVal.num _, JsVal.negInf => JsVal.num 0
  | JsVal.inf, JsVal.num b =>
    if 0 ≤ b then JsVal.inf else JsVal.negInf
  | JsVal.negInf, JsVal.num b =>
    if 0 ≤ b then JsVal.negInf else JsVal.inf

/-- The primitive mathematical functions the evaluator delegates to
(`Math.sin`, `Math.cos`, `Math.tan`, `Math.log10`, `Math.log`, `Math.sqrt`,
`**`, `Math.PI`, `Math.E`).  They are transcendental, so the embedding is
parameterized over them; no claim depends on their values. -/
structure Prims where
  psin : JsVal → JsVal
  pcos : JsVal → JsVal
  ptan : JsVal → JsVal
  plog10 : JsVal → JsVal
  pln : JsVal → JsVal
  psqrt : JsVal → JsVal
  ppow : JsVal → JsVal → JsVal
  ppi : ℚ
  pe : ℚ

/-- A fixed instantiation of the primitives, used only to state closed
witness facts that do not depend on them. -/
def defaultPrims : Prims :=
  ⟨fun _ => JsVal.nan, fun _ => JsVal.nan, fun _ => JsVal.nan,
   fun _ => JsVal.nan, fun _ => JsVal.nan, fun _ => JsVal.nan,
   fun _ _ => JsVal.nan, 0, 0⟩

/-- The session angle unit (src/App.tsx line 102). -/
inductive AngleUnit where
  | deg
  | rad
deriving DecidableEq

/-- Evaluation context: primitives plus the trig conversion factor of
src/App.tsx line 145 (`π/180` in degree mode, `1` in radian mode). -/
structure Ctx where
  prims : Prims
  factor : ℚ

/-- Names of the rewritten function calls appearing in canonical form. -/
inductive FnName where
  | sin
  | cos
  | tan
  | log10
  | ln
  | sqrt
deriving DecidableEq

/-- Tokens of the canonical (JavaScript) expression text. -/
inductive Tok where
  | num (q : ℚ)
  | add
  | sub
  | mul
  | div
  | pow
  | lp
  | rp
  | fn (g : FnName)
  | cpi
  | ce
deriving DecidableEq

/-- Value of a digit string (most significant first). -/
def digitsVal (l : List Char) : Nat :=
  l.foldl (fun a c => a * 10 + (c.toNat - 48)) 0

/-- Modelled from the spec: a JavaScript decimal number literal made of digits
and at most one dot, with at least one digit. -/
def parseNumLit (cs : List Char) : Option ℚ :=
  let I := cs.takeWhile (fun c => c.isDigit)
  let r := cs.drop I.length
  match r with
  | [] => if I.isEmpty then none else some ((digitsVal I : ℚ))
  | '.' :: F =>
    if (F.all fun c => c.isDigit) && decide (I ≠ [] ∨ F ≠ []) then
      some ((digitsVal I : ℚ) + (digitsVal F : ℚ) / (10 : ℚ) ^ F.length)
    else none
  | _ => none

/-- Modelled from the spec: lexer for the canonical form produced by
`canonical` (number literals, the operators `+ - * / ** ( )`, and the literal
names introduced by the replacement chain).  Any other character is a syntax
error, as it would be for the JavaScript engine. -/
def tokF : Nat → List Char → Except Unit (List Tok)
  | 0, _ => Except.error ()
  | _ + 1, [] => Except.ok []
  | f + 1, c :: rest =>
    let s := c :: rest
    if pfx (("Math.PI").data) s then (tokF f (s.drop 7)).map (fun ts => Tok.cpi :: ts)
    else if pfx (("Math.E").data) s then (tokF f (s.drop 6)).map (fun ts => Tok.ce :: ts)
    else if pfx (("Math.log10").data) s then (tokF f (s.drop 10)).map (fun ts => Tok.fn FnName.log10 :: ts)
    else if pfx (("Math.log").data) s then (tokF f (s.drop 8)).map (fun ts => Tok.fn FnName.ln :: ts)
    else if pfx (("Math.sqrt").data) s then (tokF f (s.drop 9)).map (fun ts => Tok.fn FnName.sqrt :: ts)
    else if pfx (("trigSin").data) s then (tokF f (s.drop 7)).map (fun ts => Tok.fn FnName.sin :: ts)
    else if pfx (("trigCos").data) s then (tokF f (s.drop 7)).map (fun ts => Tok.fn FnName.cos :: ts)
    else if pfx (("trigTan").data) s then (tokF f (s.drop 7)).map (fun ts => Tok.fn FnName.tan :: ts)
    else if pfx ([ '*', '*']) s then (tokF f (s.drop 2)).map (fun ts => Tok.pow :: ts)
    else if c = '*' then (tokF f rest).map (fun ts => Tok.mul :: ts)
    else if c = '/' then (tokF f rest).map (fun ts => Tok.div :: ts)
    else if c = '+' then (tokF f rest).map (fun ts => Tok.add :: ts)
    else if c = '-' then (tokF f rest).map (fun ts => Tok.sub :: ts)
    else if c = '(' then (tokF f rest).map (fun ts => Tok.lp :: ts)
    else if c = ')' then (tokF f rest).map (fun ts => Tok.rp :: ts)
    else if c.isDigit || c = '.' then
      let numcs := s.takeWhile (fun a => a.isDigit || a = '.')
      match parseNumLit numcs with
      | some q => (tokF f (s.drop numcs.length)).map (fun ts => Tok.num q :: ts)
      | none => Except.error ()
    else Except.error ()

/-- The tokenizer with enough fuel for its input. -/
def tokenizeCanonical (l : List Char) : Except Unit (List Tok) :=
  tokF (l.length + 1) l

/-- The angle-aware wrappers of src/App.tsx lines 146-148 and the direct
`Math` functions: trig arguments are multiplied by the conversion factor
before the primitive is applied. -/
def applyFn (cx : Ctx) : FnName → JsVal → JsVal
  | FnName.sin, v => cx.prims.psin (jmul v (JsVal.num cx.factor))
  | FnName.cos, v => cx.prims.pcos (jmul v (JsVal.num cx.factor))
  | FnName.tan, v => cx.prims.ptan (jmul v (JsVal.num cx.factor))
  | FnName.log10, v => cx.prims.plog10 v
  | FnName.ln, v => cx.prims.pln v
  | FnName.sqrt, v => cx.prims.psqrt v

/-- Modelled from the spec: recursive-descent evaluation of the canonical
expression with standard precedence (add/sub < mul/div < exponent < unary <
primary) and right-associative exponentiation, replacing the dynamic
`new Function` evaluator.  The `lvl` index selects the grammar level
(0 additive, 5 its loop, 1 multiplicative, 6 its loop, 2 exponent, 3 unary,
4 primary); `acc` is the left operand inside the loop levels. -/
def parseLvl : Nat → Ctx → Nat → JsVal → List Tok → Except Unit (JsVal × List Tok)
  | 0, _, _, _, _ => Except.error ()
  | f + 1, cx, 0, _, ts => do
    let (v, r) ← parseLvl f cx 1 JsVal.nan ts
    parseLvl f cx 5 v r
  | f + 1, cx, 5, acc, ts =>
    match ts with
    | Tok.add :: r => do
      let (w, r') ← parseLvl f cx 1 JsVal.nan r
      parseLvl f cx 5 (jadd acc w) r'
    | Tok.sub :: r => do
      let (w, r') ← parseLvl f cx 1 JsVal.nan r
      parseLvl f cx 5 (jsub acc w) r'
    | _ => Except.ok (acc, ts)
  | f + 1, cx, 1, _, ts => do
    let (v, r) ← parseLvl f cx 2 JsVal.nan ts
    parseLvl f cx 6 v r
  | f + 1, cx, 6, acc, ts =>
    match ts with
    | Tok.mul :: r => do
      let (w, r') ← parseLvl f cx 2 JsVal.nan r
      parseLvl f cx 6 (jmul acc w) r'
    | Tok.div :: r => do
      let (w, r') ← parseLvl f cx 2 JsVal.nan r
      parseLvl f cx 6 (jdiv acc w) r'
    | _ => Except.ok (acc, ts)
  | f + 1, cx, 2, _, ts => do
    let (v, r) ← parseLvl f cx 3 JsVal.nan ts
    match r with
    | Tok.pow :: r' => do
      let (w, r'') ← parseLvl f cx 2 JsVal.nan r'
      Except.ok (cx.prims.ppow v w, r'')
    | _ => Except.ok (v, r)
  | f + 1, cx, 3, _, ts =>
    match ts with
    | Tok.sub :: r => (parseLvl f cx 3 JsVal.nan r).map (fun vr => (jneg vr.1, vr.2))
    | Tok.add :: r => parseLvl f cx 3 JsVal.nan r
    | _ => parseLvl f cx 4 JsVal.nan ts
  | f + 1, cx, 4, _, ts =>
    match ts with
    | Tok.num q :: r => Except.ok (JsVal.num q, r)
    | Tok.cpi :: r => Except.ok (JsVal.num cx.prims.ppi, r)
    | Tok.ce :: r => Except.ok (JsVal.num cx.prims.pe, r)
    | Tok.lp :: r => do
      let (v, r') ← parseLvl f cx 0 JsVal.nan r
      match r' with
      | Tok.rp :: r'' => Except.ok (v, r'')
      | _ => Except.error ()
    | Tok.fn g :: r =>
      match r with
      | Tok.lp :: r2 => do
        let (v, r') ← parseLvl f cx 0 JsVal.nan r2
        match r' with
        | Tok.rp :: r'' => Except.ok (applyFn cx g v, r'')
        | _ => Except.error ()
      | _ => Except.error ()
    | _ => Except.error ()
  | _ + 1, _, _, _, _ => Except.error ()

/-- Modelled from the spec: evaluate a canonical expression text to a
JavaScript number outcome; any lexical or grammatical fault is a syntax
error. -/
def evalCanonical (P : Prims) (u : AngleUnit) (l : List Char) : Except Unit JsVal := do
  let ts ← tokenizeCanonical l
  let cx : Ctx := ⟨P, if u = AngleUnit.deg then P.ppi / 180 else 1⟩
  let (v, r) ← parseLvl (6 * ts.length + 12) cx 0 JsVal.nan ts
  match r with
  | [] => Except.ok v
  | _ => Except.error ()

/-- Fuel-indexed floor of the base-10 logarithm of a natural number. -/
def natLog10 : Nat → Nat → Nat
  | 0, _ => 0
  | f + 1, n => if n < 10 then 0 else natLog10 f (n / 10) + 1

/-- `log10N n` is the floor of the base-10 logarithm of `n` (for `1 ≤ n`). -/
def log10N (n : Nat) : Nat :=
  natLog10 n n

/-- Floor of the base-10 logarithm of a positive rational. -/
def qlog10 (a : ℚ) : ℤ :=
  if a.den * 10 ^ (log10N a.num.toNat) ≤ a.num.toNat * 10 ^ (log10N a.den) then
    ((log10N a.num.toNat : ℤ)) - log10N a.den
  else ((log10N a.num.toNat : ℤ)) - log10N a.den - 1

/-- Modelled from the spec: the magnitude scaled so that rounding to 12
significant digits becomes rounding to an integer; equals `a * 10 ^ (11 - e)`
where `e` is the decimal exponent of the leading digit. -/
def scaledBy (a : ℚ) (e : ℤ) : ℚ :=
  if 0 ≤ 11 - e then a * 10 ^ ((11 - e).toNat) else a / 10 ^ ((e - 11).toNat)

/-- Modelled from the spec: the 12-digit mantissa and decimal exponent of the
rounded value (see `scaledBy`); a mantissa overflow from rounding up bumps
the exponent. -/
def roundSigParts (a : ℚ) : Nat × ℤ :=
  if (⌊scaledBy a (qlog10 a) + 1 / 2⌋).toNat = 10 ^ 12 then (10 ^ 11, qlog10 a + 1)
  else ((⌊scaledBy a (qlog10 a) + 1 / 2⌋).toNat, qlog10 a)

/-- Modelled from the spec: the rational value obtained by rounding `q` to 12
significant digits. -/
def roundSig12 (q : ℚ) : ℚ :=
  (if q < 0 then (-1 : ℚ) else 1) * ((roundSigParts |q|).1 : ℚ) *
    (10 : ℚ) ^ ((roundSigParts |q|).2 - 11)

/-- Fuel-indexed trailing-zero stripping: returns `(m, z)` with
`m * 10 ^ z = n` and, given enough fuel and `0 < n`, `10` does not divide
`m`. -/
def stripTZ : Nat → Nat → Nat × Nat
  | 0, n => (n, 0)
  | f + 1, n =>
    if n ≠ 0 ∧ n % 10 = 0 then
      let mz := stripTZ f (n / 10)
      (mz.1, mz.2 + 1)
    else (n, 0)

/-- The decimal digit characters. -/
def digitChar : Nat → Char
  | 0 => '0'
  | 1 => '1'
  | 2 => '2'
  | 3 => '3'
  | 4 => '4'
  | 5 => '5'
  | 6 => '6'
  | 7 => '7'
  | 8 => '8'
  | 9 => '9'
  | _ => '0'

/-- The ten decimal digit characters. -/
def digitChars : List Char :=
  [ '0', '1', '2', '3', '4', '5', '6', '7', '8', '9']

/-- Fuel-indexed decimal digits of a natural number, most significant first. -/
def natDigitsF : Nat → Nat → List Char
  | 0, _ => []
  | f + 1, n =>
    if n < 10 then [digitChar n]
    else natDigitsF f (n / 10) ++ [digitChar (n % 10)]

/-- Decimal digits of a natural number, most significant first. -/
def natDigits (n : Nat) : List Char :=
  natDigitsF (n + 1) n

/-- Modelled from the spec: plain decimal rendering of `m * 10 ^ p` for a
zero-free-tail mantissa `m` (the `Number(...).toString()` step, which prints
the rounded value without trailing fractional zeros). -/
def renderMP (m : Nat) (p : ℤ) : List Char :=
  let ds := natDigits m
  if 0 ≤ p then ds ++ List.replicate p.toNat ('0')
  else
    let k : ℤ := (ds.length : ℤ) + p
    if 0 < k then ds.take k.toNat ++ '.' :: ds.drop k.toNat
    else '0' :: '.' :: (List.replicate (-k).toNat ('0') ++ ds)

/-- The result formatter of src/App.tsx lines 161-162: snap magnitudes below
`1e-12` to `0`, then `Number(result.toPrecision(12)).toString()` (modelled
from the spec as: round the magnitude to 12 significant digits, strip
trailing fractional zeros, render as a plain decimal string with a sign). -/
def fmtRat (q : ℚ) : String :=
  if |q| < (1 : ℚ) / 10 ^ 12 then ("0")
  else
    let ne := roundSigParts |q|
    let mz := stripTZ ne.1 ne.1
    ⟨(if q < 0 then [ '-'] else []) ++ renderMP mz.1 (ne.2 - 11 + (mz.2 : ℤ))⟩

/-- The `calculate` function of src/App.tsx lines 113-168: empty input yields
the empty string; otherwise normalize to canonical form, run the structural
divide-by-zero pre-check, evaluate, classify (NaN → invalid input, infinities
→ overflow, syntax faults → invalid format) and format. -/
def calculate (P : Prims) (u : AngleUnit) (s : String) : String :=
  if s = ("") then ("")
  else if divZeroPre (canonical s.data) then divZeroLabel
  else
    match evalCanonical P u (canonical s.data) with
    | Except.error _ => invalidFormatLabel
    | Except.ok JsVal.nan => invalidInputLabel
    | Except.ok JsVal.inf => overflowLabel
    | Except.ok JsVal.negInf => overflowLabel
    | Except.ok (JsVal.num q) => fmtRat q

/-- The operators that may start an expression (src/App.tsx line 195). -/
def canStartOps : List String :=
  [("-"), ("sin("), ("cos("), ("tan("), ("log("), ("ln("), ("√("), ("π"), ("e")]

/-- Membership in the character class `[+\-×÷]` of src/App.tsx line 196. -/
def binChar (c : Char) : Bool :=
  decide (c = '+') || decide (c = '-') || decide (c = '×') || decide (c = '÷')

/-- `/[+\-×÷]$/.test s` : the text ends in a collapsible operator glyph. -/
def endsBinary (s : String) : Bool :=
  match s.data.reverse with
  | c :: _ => binChar c
  | [] => false

/-- `/[+\-×÷]/.test s` : the token contains a collapsible operator glyph. -/
def containsBinary (s : String) : Bool :=
  s.data.any binChar

/-- `handleInput` of src/App.tsx lines 181-188 (digits, constants, dots,
parentheses): an error state is first cleared to empty, then the value is
appended. -/
def handleInput (prev val : String) : String :=
  (if isErrLabel prev then ("") else prev) ++ val

/-- `handleOperator` of src/App.tsx lines 190-203: an error state is replaced
by `"0"`; a pure binary operator is rejected on an empty base; a trailing
collapsible operator is replaced by the new collapsible operator; otherwise
the operator is appended. -/
def handleOperator (prev op : String) : String :=
  let base := if isErrLabel prev then ("0") else prev
  if base = ("") ∧ ¬ op ∈ canStartOps then base
  else if endsBinary base && containsBinary op then ⟨base.data.dropLast⟩ ++ op
  else base ++ op

/-- `handleBackspace` of src/App.tsx lines 210-229: an error state resets to
empty; a trailing `sin(`, `cos(`, `tan(` or `log(` removes 4 characters; a
trailing `ln(` or `√(` removes 3 characters; otherwise one character. -/
def handleBackspace (prev : String) : String :=
  if isErrLabel prev then ("")
  else if sfxTok prev.data (("sin(").data) || sfxTok prev.data (("cos(").data) ||
      sfxTok prev.data (("tan(").data) || sfxTok prev.data (("log(").data) then
    ⟨prev.data.take (prev.data.length - 4)⟩
  else if sfxTok prev.data (("ln(").data) || sfxTok prev.data (("√(").data) then
    ⟨prev.data.take (prev.data.length - 3)⟩
  else ⟨prev.data.dropLast⟩

/-- The plus-minus (sign toggle) button of src/App.tsx lines 451-459: an error state is cleared
first; a leading minus is stripped; the empty text becomes `"-"`; otherwise a
minus is prepended. -/
def signToggle (prev : String) : String :=
  let base := if isErrLabel prev then ("") else prev
  match base.data with
  | '-' :: rest => ⟨rest⟩
  | [] => ("-")
  | l => ⟨'-' :: l⟩

/-- The preview test `/[+\-×÷%^]|sin|cos|tan|log|ln|√/.test s` of
src/App.tsx line 171. -/
def hasOperators (s : String) : Bool :=
  s.data.any (fun c => binChar c || decide (c = '%') || decide (c = '^') || decide (c = '√')) ||
  containsSub (("sin").data) s.data || containsSub (("cos").data) s.data ||
  containsSub (("tan").data) s.data || containsSub (("log").data) s.data ||
  containsSub (("ln").data) s.data

/-- `updatePreview` of src/App.tsx lines 170-179, as the preview value it
sets: a preview exists only when the text contains an operator or function
substring and the evaluation result is a non-empty non-error string. -/
def updatePreview (P : Prims) (u : AngleUnit) (s : String) : Option String :=
  if hasOperators s then
    let res := calculate P u s
    if isErrLabel res = false ∧ res ≠ ("") then some res else none
  else none

/-- A history entry (src/types.ts `HistoryItem`). -/
structure HistoryItem where
  expression : String
  result : String
  timestamp : Nat
deriving DecidableEq

/-- The mutable state touched by the commit and memory actions. -/
structure CalcState where
  expression : String
  history : List HistoryItem
  preview : Option String
  memory : ℚ
deriving DecidableEq

/-- `handleEquals` of src/App.tsx lines 231-252: no-op on empty or error
state; on success append one history entry, replace the expression with the
result and clear the preview; on failure replace the expression with the
error label and clear the preview. -/
def handleEquals (P : Prims) (u : AngleUnit) (now : Nat) (st : CalcState) : CalcState :=
  if st.expression = ("") then st
  else if isErrLabel st.expression then st
  else
    let r := calculate P u st.expression
    if r ≠ ("") ∧ isErrLabel r = false then
      { st with
        expression := r
        history := st.history ++ [⟨st.expression, r, now⟩]
        preview := none }
    else if r ≠ ("") then { st with expression := r, preview := none }
    else st

/-- Modelled from the spec: JavaScript `parseFloat` on the decimal strings the
formatter produces (optional leading minus, digits, optional dot and fraction
digits; anything else contributes nothing). -/
def parsePosQ (l : List Char) : ℚ :=
  let I := l.takeWhile (fun c => c.isDigit)
  let r := l.drop I.length
  match r with
  | '.' :: F =>
    let F' := F.takeWhile (fun c => c.isDigit)
    (digitsVal I : ℚ) + (digitsVal F' : ℚ) / (10 : ℚ) ^ F'.length
  | _ => (digitsVal I : ℚ)

/-- Modelled from the spec: JavaScript `parseFloat` with an optional sign. -/
def parseFloatQ (s : String) : ℚ :=
  match s.data with
  | '-' :: rest => -(parsePosQ rest)
  | l => parsePosQ l

/-- `handleMemoryAdd` of src/App.tsx lines 264-269: evaluate the pending
expression (defaulting to `"0"` when empty) and, if the result is a non-empty
non-error string, add its parsed value to the memory register. -/
def handleMemoryAdd (P : Prims) (u : AngleUnit) (st : CalcState) : CalcState :=
  if isErrLabel (calculate P u (if st.expression = ("") then ("0") else st.expression)) = false ∧
      calculate P u (if st.expression = ("") then ("0") else st.expression) ≠ ("") then
    { st with memory := st.memory +
        parseFloatQ (calculate P u (if st.expression = ("") then ("0") else st.expression)) }
  else st

/-- `handleMemorySubtract` of src/App.tsx lines 270-275. -/
def handleMemorySubtract (P : Prims) (u : AngleUnit) (st : CalcState) : CalcState :=
  if isErrLabel (calculate P u (if st.expression = ("") then ("0") else st.expression)) = false ∧
      calculate P u (if st.expression = ("") then ("0") else st.expression) ≠ ("") then
    { st with memory := st.memory -
        parseFloatQ (calculate P u (if st.expression = ("") then ("0") else st.expression)) }
  else st


/-- Whether a text begins with two minus signs. -/
def startsTwoMinus (t : String) : Bool :=
  match t.data with
  | '-' :: '-' :: _ => true
  | _ => false

/-- Whether a text ends in one of the six function-prefix tokens handled by
backspace. -/
def endsFnTok (t : String) : Bool :=
  sfxTok t.data (("sin(").data) || sfxTok t.data (("cos(").data) ||
  sfxTok t.data (("tan(").data) || sfxTok t.data (("log(").data) ||
  sfxTok t.data (("ln(").data) || sfxTok t.data (("√(").data)

/-- Whether the last two characters of a text are both collapsible operator
glyphs. -/
def lastTwoBinary (s : String) : Bool :=
  match s.data.reverse with
  | a :: b :: _ => binChar a && binChar b
  | _ => false

/-! ### Helper lemmas -/

/-- A list is a prefix of itself extended by anything. -/
theorem pfx_append_self : ∀ (p r : List Char), pfx p (p ++ r) = true := by
  intro p
  induction p with
  | nil => intro r; rfl
  | cons a as ih => intro r; simp [pfx, ih]

/-- Suffix tests on an appended tail reduce to prefix tests on reverses. -/
theorem sfx_append (x tok pat : List Char) :
    sfxTok (x ++ tok) pat = pfx pat.reverse (tok.reverse ++ x.reverse) := by
  unfold sfxTok
  rw [List.reverse_append]

/-- An error state is one of the five labels. -/
theorem isErrLabel_cases {s : String} (h : isErrLabel s = true) :
    s = invalidFormatLabel ∨ s = invalidInputLabel ∨ s = divZeroLabel ∨
      s = overflowLabel ∨ s = genericErrorLabel := by
  simp only [isErrLabel, Bool.or_eq_true, decide_eq_true_eq] at h
  tauto

/-- No error label ends in an opening parenthesis. -/
theorem label_not_ends_paren {s : String} (h : isErrLabel s = true) :
    sfxTok s.data ([ '(']) = false := by
  rcases isErrLabel_cases h with h' | h' | h' | h' | h' <;> subst h' <;> decide

/-- No error label ends in a plus sign. -/
theorem label_not_ends_plus {s : String} (h : isErrLabel s = true) :
    sfxTok s.data ([ '+']) = false := by
  rcases isErrLabel_cases h with h' | h' | h' | h' | h' <;> subst h' <;> decide

/-- No error label starts with a minus sign. -/
theorem label_head_not_minus {s : String} (h : isErrLabel s = true) :
    s.data.head? ≠ some '-' := by
  rcases isErrLabel_cases h with h' | h' | h' | h' | h' <;> subst h' <;> decide

/-- A string ending in an opening parenthesis is not an error label. -/
theorem notErr_of_ends_paren {s : String} (hp : sfxTok s.data ([ '(']) = true) :
    isErrLabel s = false := by
  cases hEq : isErrLabel s with
  | false => rfl
  | true =>
    have hf := label_not_ends_paren hEq
    rw [hf] at hp
    cases hp

/-- A string ending in a plus sign is not an error label. -/
theorem notErr_of_ends_plus {s : String} (hp : sfxTok s.data ([ '+']) = true) :
    isErrLabel s = false := by
  cases hEq : isErrLabel s with
  | false => rfl
  | true =>
    have hf := label_not_ends_plus hEq
    rw [hf] at hp
    cases hp

/-- A string starting with a minus sign is not an error label. -/
theorem notErr_cons_minus (w : List Char) : isErrLabel (⟨'-' :: w⟩ : String) = false := by
  cases hEq : isErrLabel (⟨'-' :: w⟩ : String) with
  | false => rfl
  | true => exact absurd rfl (label_head_not_minus hEq)

/-- A string of the shape `l ++ "+"` is not an error label. -/
theorem notErr_concat_plus (l : List Char) : isErrLabel (⟨l ++ [ '+']⟩ : String) = false := by
  apply notErr_of_ends_plus
  rw [show (⟨l ++ [ '+']⟩ : String).data = l ++ ([ '+']) from rfl, sfx_append]
  rfl

/-- Every character returned by `digitChar` is a decimal digit character. -/
theorem digitChar_mem : ∀ d : Nat, digitChar d ∈ digitChars := by
  intro d
  rcases d with _ | _ | _ | _ | _ | _ | _ | _ | _ | _ | n <;> simp [digitChar, digitChars]

/-- With positive fuel, `natDigitsF` yields a nonempty digit string headed by a
digit character. -/
theorem natDigitsF_head : ∀ (f n : Nat), ∃ c cs,
    natDigitsF (f + 1) n = c :: cs ∧ c ∈ digitChars := by
  intro f
  induction f with
  | zero =>
    intro n
    by_cases h : n < 10
    · exact ⟨digitChar n, [], by simp [natDigitsF, h], digitChar_mem n⟩
    · exact ⟨digitChar (n % 10), [], by simp [natDigitsF, h], digitChar_mem _⟩
  | succ k ih =>
    intro n
    by_cases h : n < 10
    · exact ⟨digitChar n, [], by simp [natDigitsF, h], digitChar_mem n⟩
    · obtain ⟨c, cs, hEq, hc⟩ := ih (n / 10)
      refine ⟨c, cs ++ [digitChar (n % 10)], ?_, hc⟩
      rw [show natDigitsF (k + 1 + 1) n
          = if n < 10 then [digitChar n] else natDigitsF (k + 1) (n / 10) ++ [digitChar (n % 10)]
          from rfl, if_neg h, hEq]
      rfl

/-- The rendering of a mantissa always starts with a digit character. -/
theorem renderMP_head (m : Nat) (p : ℤ) :
    ∃ c cs, renderMP m p = c :: cs ∧ c ∈ digitChars := by
  obtain ⟨c, cs, hEq, hc⟩ := natDigitsF_head m m
  unfold renderMP natDigits
  rw [hEq]
  by_cases hp : 0 ≤ p
  · rw [if_pos hp]
    exact ⟨c, cs ++ List.replicate p.toNat ('0'), rfl, hc⟩
  · rw [if_neg hp]
    by_cases hk : 0 < (((c :: cs).length : ℤ) + p)
    · rw [if_pos hk]
      obtain ⟨j, hj⟩ : ∃ j, (((c :: cs).length : ℤ) + p).toNat = j + 1 :=
        ⟨(((c :: cs).length : ℤ) + p).toNat - 1, by omega⟩
      rw [hj]
      exact ⟨c, _, rfl, hc⟩
    · rw [if_neg hk]
      exact ⟨'0', _, rfl, by decide⟩

/-- Every formatted result starts with a minus sign or a digit. -/
theorem fmtRat_head (q : ℚ) :
    ∃ c cs, (fmtRat q).data = c :: cs ∧ (c = '-' ∨ c ∈ digitChars) := by
  unfold fmtRat
  by_cases h : |q| < (1 : ℚ) / 10 ^ 12
  · rw [if_pos h]
    exact ⟨'0', [], rfl, Or.inr (by decide)⟩
  · rw [if_neg h]
    obtain ⟨c, cs, hEq, hc⟩ :=
      renderMP_head (stripTZ (roundSigParts |q|).1 (roundSigParts |q|).1).1
        ((roundSigParts |q|).2 - 11 + ((stripTZ (roundSigParts |q|).1 (roundSigParts |q|).1).2 : ℤ))
    by_cases hq : q < 0
    · rw [if_pos hq]
      exact ⟨'-', _, rfl, Or.inl rfl⟩
    · rw [if_neg hq]
      refine ⟨c, cs, ?_, Or.inr hc⟩
      show [] ++ renderMP _ _ = c :: cs
      rw [List.nil_append, hEq]

/-- A formatted result is never one of the five error labels. -/
theorem fmtRat_not_err (q : ℚ) : isErrLabel (fmtRat q) = false := by
  obtain ⟨c, cs, hd, hc⟩ := fmtRat_head q
  have hne : c ≠ 'I' ∧ c ≠ 'C' ∧ c ≠ 'V' ∧ c ≠ 'E' := by
    rcases hc with h | h
    · subst h; refine ⟨by decide, by decide, by decide, by decide⟩
    · fin_cases h <;> refine ⟨by decide, by decide, by decide, by decide⟩
  cases hEq : isErrLabel (fmtRat q) with
  | false => rfl
  | true =>
    exfalso
    have hhead : (fmtRat q).data.head? = some c := by rw [hd]; rfl
    rcases isErrLabel_cases hEq with h | h | h | h | h
    · rw [h, show invalidFormatLabel.data.head? = some ('I') from rfl] at hhead
      exact hne.1 (Option.some.inj hhead).symm
    · rw [h, show invalidInputLabel.data.head? = some ('I') from rfl] at hhead
      exact hne.1 (Option.some.inj hhead).symm
    · rw [h, show divZeroLabel.data.head? = some ('C') from rfl] at hhead
      exact hne.2.1 (Option.some.inj hhead).symm
    · rw [h, show overflowLabel.data.head? = some ('V') from rfl] at hhead
      exact hne.2.2.1 (Option.some.inj hhead).symm
    · rw [h, show genericErrorLabel.data.head? = some ('E') from rfl] at hhead
      exact hne.2.2.2 (Option.some.inj hhead).symm

/-- A formatted result is never the empty string. -/
theorem fmtRat_ne_empty (q : ℚ) : fmtRat q ≠ ("") := by
  obtain ⟨c, cs, hd, _⟩ := fmtRat_head q
  intro h
  rw [h] at hd
  cases hd

/-- The evaluation pipeline never returns the empty string on nonempty
input. -/
theorem calculate_ne_empty (P : Prims) (u : AngleUnit) (s : String) (hs : s ≠ ("")) :
    calculate P u s ≠ ("") := by
  unfold calculate
  rw [if_neg hs]
  by_cases hz : divZeroPre (canonical s.data) = true
  · rw [if_pos hz]; decide
  · rw [if_neg hz]
    cases hev : evalCanonical P u (canonical s.data) with
    | error e => exact (by decide : invalidFormatLabel ≠ (""))
    | ok v =>
      cases v with
      | num q => exact fmtRat_ne_empty q
      | inf => decide
      | negInf => decide
      | nan => decide

/-! ### Claims -/

/-- C1 counterexample: the claim states that a `/0` followed by a further
digit, such as the `/05` arising from `"1÷05"`, is not classified as
DivideByZero; but the code's lookahead only excludes a following dot, so
`"1÷05"` is classified as DivideByZero by the structural pre-check. -/
theorem C1_counterexample :
    calculate defaultPrims AngleUnit.deg ("1÷05") = divZeroLabel := by
  with_unfolding_all decide

/-- C2 counterexample: pressing the pure binary operator `+` while the
expression holds the error label restores the state to `"0"`, not to Empty,
so the result is `"0+"` rather than the empty string the claim requires. -/
theorem C2_counterexample :
    handleOperator (genericErrorLabel) ("+") = ("0+") ∧ (("0+") : String) ≠ ("") :=
  ⟨by decide, by decide⟩

/-- C2 (amended): keypad actions applied in an error state first restore the
state to Empty before applying the action — except operator input, which
restores the state to `"0"` instead, so pressing any operator while in the
Error state yields `"0"` followed by that operator (never the empty string). -/
theorem C2_amended (lbl : String) (hl : isErrLabel lbl = true) (v op : String)
    (P : Prims) (u : AngleUnit) (now : Nat) (st : CalcState) (hst : st.expression = lbl) :
    handleInput lbl v = handleInput ("") v
    ∧ handleBackspace lbl = ("")
    ∧ signToggle lbl = signToggle ("")
    ∧ handleEquals P u now st = st
    ∧ handleOperator lbl op = ("0") ++ op := by
  have hemp : isErrLabel ("") = false := rfl
  have hlne : lbl ≠ ("") := by
    intro h
    rw [h] at hl
    exact absurd hl (by decide)
  refine ⟨?_, ?_, ?_, ?_, ?_⟩
  · simp [handleInput, hl, hemp]
  · simp [handleBackspace, hl]
  · simp [signToggle, hl, hemp]
  · simp [handleEquals, hst, hl, hlne]
  · simp [handleOperator, hl, show endsBinary ("0") = false from rfl,
      (by decide : ¬ (("0") : String) = (""))]

/-- C2 witness: the amended behavior at the label `"Error"` with digit `"1"`
and operator `"+"`. -/
theorem C2_witness :
    handleInput (genericErrorLabel) ("1") = handleInput ("") ("1")
    ∧ handleBackspace (genericErrorLabel) = ("")
    ∧ signToggle (genericErrorLabel) = signToggle ("")
    ∧ handleEquals defaultPrims AngleUnit.deg 0 ⟨genericErrorLabel, [], none, 0⟩ =
        ⟨genericErrorLabel, [], none, 0⟩
    ∧ handleOperator (genericErrorLabel) ("+") = ("0") ++ ("+") :=
  C2_amended genericErrorLabel (by decide) ("1") ("+") defaultPrims AngleUnit.deg 0
    ⟨genericErrorLabel, [], none, 0⟩ rfl

/-- C4 counterexample: the claim quantifies over every input expression, but
the empty expression evaluates to the empty string, which is none of the five
error labels (and no formatted result is the empty string, by
`fmtRat_ne_empty`), so the claimed dichotomy fails at the empty input. -/
theorem C4_counterexample :
    calculate defaultPrims AngleUnit.deg ("") = ("")
    ∧ isErrLabel ("") = false
    ∧ (("") : String) ≠ invalidFormatLabel
    ∧ (("") : String) ≠ invalidInputLabel
    ∧ (("") : String) ≠ divZeroLabel
    ∧ (("") : String) ≠ overflowLabel
    ∧ (("") : String) ≠ genericErrorLabel :=
  ⟨by decide, by decide, by decide, by decide, by decide, by decide, by decide⟩

/-- C4 (amended): on every nonempty input the evaluation pipeline is total and
returns either a formatted value or exactly one of the five fixed error
labels — no other error label is ever produced; the empty input returns the
empty string, which is neither one of the labels nor a possible formatted
result. -/
theorem C4_theorem (P : Prims) (u : AngleUnit) :
    (∀ s : String, s ≠ ("") →
      (∃ q : ℚ, calculate P u s = fmtRat q) ∨ calculate P u s = invalidFormatLabel ∨
      calculate P u s = invalidInputLabel ∨ calculate P u s = divZeroLabel ∨
      calculate P u s = overflowLabel ∨ calculate P u s = genericErrorLabel)
    ∧ calculate P u ("") = ("")
    ∧ isErrLabel ("") = false
    ∧ (∀ q : ℚ, fmtRat q ≠ ("")) := by
  refine ⟨?_, rfl, rfl, fmtRat_ne_empty⟩
  intro s hs
  unfold calculate
  rw [if_neg hs]
  by_cases hz : divZeroPre (canonical s.data) = true
  · rw [if_pos hz]
    exact Or.inr (Or.inr (Or.inr (Or.inl rfl)))
  · rw [if_neg hz]
    cases hev : evalCanonical P u (canonical s.data) with
    | error e => exact Or.inr (Or.inl rfl)
    | ok v =>
      cases v with
      | num q => exact Or.inl ⟨q, rfl⟩
      | inf => exact Or.inr (Or.inr (Or.inr (Or.inr (Or.inl rfl))))
      | negInf => exact Or.inr (Or.inr (Or.inr (Or.inr (Or.inl rfl))))
      | nan => exact Or.inr (Or.inr (Or.inl rfl))

/-- C4 witness: the classification at the concrete nonempty input `"1+1"`,
the empty-input result, and a concrete formatted result being nonempty. -/
theorem C4_witness :
    ((∃ q : ℚ, calculate defaultPrims AngleUnit.deg ("1+1") = fmtRat q) ∨
      calculate defaultPrims AngleUnit.deg ("1+1") = invalidFormatLabel ∨
      calculate defaultPrims AngleUnit.deg ("1+1") = invalidInputLabel ∨
      calculate defaultPrims AngleUnit.deg ("1+1") = divZeroLabel ∨
      calculate defaultPrims AngleUnit.deg ("1+1") = overflowLabel ∨
      calculate defaultPrims AngleUnit.deg ("1+1") = genericErrorLabel)
    ∧ calculate defaultPrims AngleUnit.deg ("") = ("")
    ∧ fmtRat 2 ≠ ("") :=
  ⟨(C4_theorem defaultPrims AngleUnit.deg).1 ("1+1") (by decide),
   (C4_theorem defaultPrims AngleUnit.deg).2.1,
   (C4_theorem defaultPrims AngleUnit.deg).2.2.2 2⟩

/-- C8: an operand-only text (no operator or function substring) never has a
preview, and a preview whose evaluation resolves to an error label is
suppressed. -/
theorem C8_theorem (P : Prims) (u : AngleUnit) (s : String) :
    (hasOperators s = false → updatePreview P u s = none)
    ∧ (isErrLabel (calculate P u s) = true → updatePreview P u s = none) := by
  constructor
  · intro h
    simp [updatePreview, h]
  · intro h
    by_cases hop : hasOperators s = true
    · simp [updatePreview, hop, h]
    · simp [updatePreview, hop]

/-- C8 witness: no preview for the bare number `"5"`, and the erroring
preview `"1÷0"` is suppressed. -/
theorem C8_witness :
    updatePreview defaultPrims AngleUnit.deg ("5") = none
    ∧ updatePreview defaultPrims AngleUnit.deg ("1÷0") = none :=
  ⟨(C8_theorem defaultPrims AngleUnit.deg ("5")).1 (by decide),
   (C8_theorem defaultPrims AngleUnit.deg ("1÷0")).2 (by with_unfolding_all decide)⟩

/-- C10 counterexample: the sign toggle is not an involution on every
non-error text: `"--1"` is not an error label, yet toggling twice yields
`"1"`, because the first press strips only one of the two leading minus
signs and the second press strips the other. -/
theorem C10_counterexample :
    signToggle (signToggle ("--1")) = ("1")
    ∧ (("1") : String) ≠ ("--1")
    ∧ isErrLabel ("--1") = false :=
  ⟨by decide, by decide, by decide⟩

/-- Toggling the sign of a non-error text that does not start with a minus
sign prepends a minus sign. -/
theorem signToggle_prepend (c : Char) (rest : List Char) (hc : c ≠ '-')
    (h1 : isErrLabel ⟨c :: rest⟩ = false) :
    signToggle ⟨c :: rest⟩ = ⟨'-' :: c :: rest⟩ := by
  unfold signToggle
  rw [h1, if_neg (by decide : ¬ (false = true))]
  dsimp only
  split
  next x rest' heq =>
    exfalso
    injection heq with ha hb
    exact hc ha
  next x heq => exact List.noConfusion heq
  next x h1' h2' => rfl

/-- C10 (amended): the sign toggle is an involution on every text that is not
an error label, does not begin with two minus signs, and is not a minus sign
followed by an error label. -/
theorem C10_amended (t : String) (h1 : isErrLabel t = false)
    (h2 : startsTwoMinus t = false)
    (h3 : ∀ r : List Char, t.data = '-' :: r → isErrLabel (⟨r⟩ : String) = false) :
    signToggle (signToggle t) = t := by
  obtain ⟨l⟩ := t
  cases l with
  | nil => decide
  | cons c rest =>
    by_cases hc : c = '-'
    · subst hc
      have hr : isErrLabel (⟨rest⟩ : String) = false := h3 rest rfl
      have s1 : signToggle ⟨'-' :: rest⟩ = ⟨rest⟩ := by
        unfold signToggle
        rw [h1]
        rfl
      rw [s1]
      cases rest with
      | nil => decide
      | cons c2 r2 =>
        have hc2 : c2 ≠ '-' := by
          intro hEq
          subst hEq
          simp [startsTwoMinus] at h2
        exact signToggle_prepend c2 r2 hc2 hr
    · have s2 : signToggle ⟨'-' :: c :: rest⟩ = ⟨c :: rest⟩ := by
        unfold signToggle
        rw [notErr_cons_minus (c :: rest)]
        rfl
      rw [signToggle_prepend c rest hc h1, s2]

/-- C10 witness: the involution at the concrete text `"5"`. -/
theorem C10_witness : signToggle (signToggle ("5")) = ("5") :=
  C10_amended ("5") (by decide) (by decide)
    (fun r h => by simp at h)

/-- C5 counterexample: backspace on `"5√("` removes all three remaining
characters (the two-character token `√(` plus the preceding `5`), producing
`""` rather than `"5"`, so the trailing token is not removed "as one unit and
nothing more". -/
theorem C5_counterexample :
    handleBackspace ("5√(") = ("") ∧ (("") : String) ≠ ("5") :=
  ⟨by decide, by decide⟩

/-- C6 counterexample: `^` is a pure binary operator (it cannot start an
expression), yet pressing it after the trailing binary operator of `"1+"`
appends instead of replacing, yielding `"1+^"`; and on the non-empty text
`"1+×"`, typing `+` then `-` yields `"1+-"`, which ends in `"+-"` — the
pair the claim says can never occur. -/
theorem C6_counterexample :
    handleOperator ("1+") ("^") = ("1+^")
    ∧ handleOperator (handleOperator ("1+×") ("+")) ("-") = ("1+-")
    ∧ sfxTok (("1+-").data) ([ '+', '-']) = true :=
  ⟨by decide, by decide, by decide⟩

/-- C3: equals is a no-op on an empty or error expression; on success it
appends exactly one history entry recording the expression and the formatted
result and replaces the expression with that result; on failure it appends
nothing and sets the expression to the error label. -/
theorem C3_theorem (P : Prims) (u : AngleUnit) (now : Nat) (st : CalcState) :
    ((st.expression = ("") ∨ isErrLabel st.expression = true) → handleEquals P u now st = st)
    ∧ (st.expression ≠ ("") → isErrLabel st.expression = false →
        isErrLabel (calculate P u st.expression) = false →
        (handleEquals P u now st).history
            = st.history ++ [⟨st.expression, calculate P u st.expression, now⟩]
          ∧ (handleEquals P u now st).expression = calculate P u st.expression)
    ∧ (st.expression ≠ ("") → isErrLabel st.expression = false →
        isErrLabel (calculate P u st.expression) = true →
        (handleEquals P u now st).history = st.history
          ∧ (handleEquals P u now st).expression = calculate P u st.expression) := by
  refine ⟨?_, ?_, ?_⟩
  · rintro (h | h)
    · simp [handleEquals, h]
    · by_cases h0 : st.expression = ("")
      · simp [handleEquals, h0]
      · simp [handleEquals, h0, h]
  · intro h1 h2 h3
    have hr : calculate P u st.expression ≠ ("") := calculate_ne_empty P u _ h1
    simp [handleEquals, h1, h2, h3, hr]
  · intro h1 h2 h3
    have hr : calculate P u st.expression ≠ ("") := calculate_ne_empty P u _ h1
    simp [handleEquals, h1, h2, h3, hr]

/-- C3 witness: a successful commit of `"1+1"` appends one entry and replaces
the expression; a failing commit of `"1÷0"` appends nothing and stores the
label; equals on the empty expression is a no-op. -/
theorem C3_witness :
    ((handleEquals defaultPrims AngleUnit.deg 7 ⟨("1+1"), [], none, 0⟩).history
        = [] ++ [⟨("1+1"), calculate defaultPrims AngleUnit.deg ("1+1"), 7⟩]
      ∧ (handleEquals defaultPrims AngleUnit.deg 7 ⟨("1+1"), [], none, 0⟩).expression
        = calculate defaultPrims AngleUnit.deg ("1+1"))
    ∧ ((handleEquals defaultPrims AngleUnit.deg 7 ⟨("1÷0"), [], none, 0⟩).history = []
      ∧ (handleEquals defaultPrims AngleUnit.deg 7 ⟨("1÷0"), [], none, 0⟩).expression
        = calculate defaultPrims AngleUnit.deg ("1÷0"))
    ∧ handleEquals defaultPrims AngleUnit.deg 7 ⟨(""), [], none, 0⟩ = ⟨(""), [], none, 0⟩ :=
  ⟨(C3_theorem defaultPrims AngleUnit.deg 7 ⟨("1+1"), [], none, 0⟩).2.1 (by decide) (by decide)
      (by with_unfolding_all decide),
   (C3_theorem defaultPrims AngleUnit.deg 7 ⟨("1÷0"), [], none, 0⟩).2.2 (by decide) (by decide)
      (by with_unfolding_all decide),
   (C3_theorem defaultPrims AngleUnit.deg 7 ⟨(""), [], none, 0⟩).1 (Or.inl rfl)⟩

/-- C9: with the expression and angle unit unchanged, a memory-add followed by
a memory-subtract returns the register to its prior value whenever the pending
expression evaluates without error; an empty expression contributes the
default operand 0, leaving memory unchanged. -/
theorem C9_theorem (P : Prims) (u : AngleUnit) (st : CalcState) :
    (isErrLabel (calculate P u (if st.expression = ("") then ("0") else st.expression)) = false →
      (handleMemorySubtract P u (handleMemoryAdd P u st)).memory = st.memory)
    ∧ (st.expression = ("") → (handleMemoryAdd P u st).memory = st.memory) := by
  constructor
  · intro h
    have he' : (if st.expression = ("") then ("0") else st.expression) ≠ ("") := by
      by_cases h0 : st.expression = ("")
      · rw [if_pos h0]; decide
      · rw [if_neg h0]; exact h0
    have hcv : calculate P u (if st.expression = ("") then ("0") else st.expression) ≠ ("") :=
      calculate_ne_empty P u _ he'
    have haddm : (handleMemoryAdd P u st).memory = st.memory + parseFloatQ (calculate P u (if st.expression = ("") then ("0") else st.expression)) := by
      unfold handleMemoryAdd
      rw [if_pos ⟨h, hcv⟩]
    have hadde : (handleMemoryAdd P u st).expression = st.expression := by
      unfold handleMemoryAdd
      rw [if_pos ⟨h, hcv⟩]
    unfold handleMemorySubtract
    rw [hadde, if_pos ⟨h, hcv⟩]
    dsimp only
    rw [haddm]
    exact add_sub_cancel_right st.memory _
  · intro h0
    have hz : calculate P u ("0") = ("0") := by with_unfolding_all rfl
    unfold handleMemoryAdd
    rw [h0, show (if (("") : String) = ("") then ("0") else ("")) = ("0") from rfl, hz,
      if_pos ⟨by decide, by decide⟩]
    dsimp only
    rw [show parseFloatQ ("0") = 0 from by with_unfolding_all rfl]
    exact add_zero st.memory

/-- C9 witness: the round trip and the empty-expression default at the state
with empty expression and memory 5. -/
theorem C9_witness :
    (handleMemorySubtract defaultPrims AngleUnit.deg
        (handleMemoryAdd defaultPrims AngleUnit.deg ⟨(""), [], none, 5⟩)).memory = 5
    ∧ (handleMemoryAdd defaultPrims AngleUnit.deg ⟨(""), [], none, 5⟩).memory = 5 :=
  ⟨(C9_theorem defaultPrims AngleUnit.deg ⟨(""), [], none, 5⟩).1 (by with_unfolding_all decide),
   (C9_theorem defaultPrims AngleUnit.deg ⟨(""), [], none, 5⟩).2 rfl⟩

/-- C5 (amended): backspace removes a trailing `sin(`, `cos(`, `tan(` or
`log(` as one 4-character unit and a trailing `ln(` as one 3-character unit
(exactly the token); a trailing `√(` removes 3 characters — the 2-character
token plus one preceding character when present, since `√(` is only 2
characters long; otherwise exactly one character is removed; backspace on
`"sin("` produces `""`. -/
theorem C5_amended (x t : String) :
    handleBackspace (x ++ ("sin(")) = x
    ∧ handleBackspace (x ++ ("cos(")) = x
    ∧ handleBackspace (x ++ ("tan(")) = x
    ∧ handleBackspace (x ++ ("log(")) = x
    ∧ handleBackspace (x ++ ("ln(")) = x
    ∧ handleBackspace (x ++ ("√(")) = ⟨x.data.dropLast⟩
    ∧ (isErrLabel t = false → endsFnTok t = false → handleBackspace t = ⟨t.data.dropLast⟩)
    ∧ handleBackspace ("sin(") = ("") := by
  refine ⟨?_, ?_, ?_, ?_, ?_, ?_, ?_, by decide⟩
  · -- sin(
    have hdata : (x ++ ("sin(")).data = x.data ++ (("sin(").data) := rfl
    have herr : isErrLabel (x ++ ("sin(")) = false :=
      notErr_of_ends_paren (by rw [hdata, sfx_append]; rfl)
    have c1 : sfxTok (x ++ ("sin(")).data (("sin(").data) = true := by
      rw [hdata, sfx_append]; exact pfx_append_self _ _
    unfold handleBackspace
    rw [herr, if_neg (by decide : ¬ (false = true)), c1, if_pos (by simp)]
    rw [hdata, List.length_append, show (("sin(").data).length = 4 from rfl,
      Nat.add_sub_cancel, List.take_left]
  · -- cos(
    have hdata : (x ++ ("cos(")).data = x.data ++ (("cos(").data) := rfl
    have herr : isErrLabel (x ++ ("cos(")) = false :=
      notErr_of_ends_paren (by rw [hdata, sfx_append]; rfl)
    have c1 : sfxTok (x ++ ("cos(")).data (("sin(").data) = false := by
      rw [hdata, sfx_append]; rfl
    have c2 : sfxTok (x ++ ("cos(")).data (("cos(").data) = true := by
      rw [hdata, sfx_append]; exact pfx_append_self _ _
    unfold handleBackspace
    rw [herr, if_neg (by decide : ¬ (false = true)), c1, c2, if_pos (by simp)]
    rw [hdata, List.length_append, show (("cos(").data).length = 4 from rfl,
      Nat.add_sub_cancel, List.take_left]
  · -- tan(
    have hdata : (x ++ ("tan(")).data = x.data ++ (("tan(").data) := rfl
    have herr : isErrLabel (x ++ ("tan(")) = false :=
      notErr_of_ends_paren (by rw [hdata, sfx_append]; rfl)
    have c1 : sfxTok (x ++ ("tan(")).data (("sin(").data) = false := by
      rw [hdata, sfx_append]; rfl
    have c2 : sfxTok (x ++ ("tan(")).data (("cos(").data) = false := by
      rw [hdata, sfx_append]; rfl
    have c3 : sfxTok (x ++ ("tan(")).data (("tan(").data) = true := by
      rw [hdata, sfx_append]; exact pfx_append_self _ _
    unfold handleBackspace
    rw [herr, if_neg (by decide : ¬ (false = true)), c1, c2, c3, if_pos (by simp)]
    rw [hdata, List.length_append, show (("tan(").data).length = 4 from rfl,
      Nat.add_sub_cancel, List.take_left]
  · -- log(
    have hdata : (x ++ ("log(")).data = x.data ++ (("log(").data) := rfl
    have herr : isErrLabel (x ++ ("log(")) = false :=
      notErr_of_ends_paren (by rw [hdata, sfx_append]; rfl)
    have c1 : sfxTok (x ++ ("log(")).data (("sin(").data) = false := by
      rw [hdata, sfx_append]; rfl
    have c2 : sfxTok (x ++ ("log(")).data (("cos(").data) = false := by
      rw [hdata, sfx_append]; rfl
    have c3 : sfxTok (x ++ ("log(")).data (("tan(").data) = false := by
      rw [hdata, sfx_append]; rfl
    have c4 : sfxTok (x ++ ("log(")).data (("log(").data) = true := by
      rw [hdata, sfx_append]; exact pfx_append_self _ _
    unfold handleBackspace
    rw [herr, if_neg (by decide : ¬ (false = true)), c1, c2, c3, c4, if_pos (by simp)]
    rw [hdata, List.length_append, show (("log(").data).length = 4 from rfl,
      Nat.add_sub_cancel, List.take_left]
  · -- ln(
    have hdata : (x ++ ("ln(")).data = x.data ++ (("ln(").data) := rfl
    have herr : isErrLabel (x ++ ("ln(")) = false :=
      notErr_of_ends_paren (by rw [hdata, sfx_append]; rfl)
    have c1 : sfxTok (x ++ ("ln(")).data (("sin(").data) = false := by
      rw [hdata, sfx_append]; rfl
    have c2 : sfxTok (x ++ ("ln(")).data (("cos(").data) = false := by
      rw [hdata, sfx_append]; rfl
    have c3 : sfxTok (x ++ ("ln(")).data (("tan(").data) = false := by
      rw [hdata, sfx_append]; rfl
    have c4 : sfxTok (x ++ ("ln(")).data (("log(").data) = false := by
      rw [hdata, sfx_append]; rfl
    have c5 : sfxTok (x ++ ("ln(")).data (("ln(").data) = true := by
      rw [hdata, sfx_append]; exact pfx_append_self _ _
    unfold handleBackspace
    rw [herr, if_neg (by decide : ¬ (false = true)), c1, c2, c3, c4,
      if_neg (by decide : ¬ ((false || false || false || false) = true)), c5, if_pos (by simp)]
    rw [hdata, List.length_append, show (("ln(").data).length = 3 from rfl,
      Nat.add_sub_cancel, List.take_left]
  · -- √(
    have hdata : (x ++ ("√(")).data = x.data ++ (("√(").data) := rfl
    have herr : isErrLabel (x ++ ("√(")) = false :=
      notErr_of_ends_paren (by rw [hdata, sfx_append]; rfl)
    have c1 : sfxTok (x ++ ("√(")).data (("sin(").data) = false := by
      rw [hdata, sfx_append]; rfl
    have c2 : sfxTok (x ++ ("√(")).data (("cos(").data) = false := by
      rw [hdata, sfx_append]; rfl
    have c3 : sfxTok (x ++ ("√(")).data (("tan(").data) = false := by
      rw [hdata, sfx_append]; rfl
    have c4 : sfxTok (x ++ ("√(")).data (("log(").data) = false := by
      rw [hdata, sfx_append]; rfl
    have c5 : sfxTok (x ++ ("√(")).data (("ln(").data) = false := by
      rw [hdata, sfx_append]; rfl
    have c6 : sfxTok (x ++ ("√(")).data (("√(").data) = true := by
      rw [hdata, sfx_append]; exact pfx_append_self _ _
    unfold handleBackspace
    rw [herr, if_neg (by decide : ¬ (false = true)), c1, c2, c3, c4,
      if_neg (by decide : ¬ ((false || false || false || false) = true)), c5, c6,
      if_pos (by simp)]
    rw [hdata, List.length_append, show (("√(").data).length = 2 from rfl,
      show x.data.length + 2 - 3 = x.data.length - 1 from by omega,
      List.take_append_of_le_length (by omega : x.data.length - 1 ≤ x.data.length),
      ← List.dropLast_eq_take]
  · -- generic single character
    intro h1 h2
    simp only [endsFnTok, Bool.or_eq_false_iff] at h2
    obtain ⟨⟨⟨⟨⟨e1, e2⟩, e3⟩, e4⟩, e5⟩, e6⟩ := h2
    unfold handleBackspace
    rw [h1, if_neg (by decide : ¬ (false = true)), e1, e2, e3, e4, e5, e6,
      if_neg (by decide : ¬ ((false || false || false || false) = true)),
      if_neg (by decide : ¬ ((false || false) = true))]

/-- C5 witness: the amended backspace behavior at concrete inputs. -/
theorem C5_witness :
    handleBackspace (("12") ++ ("sin(")) = ("12")
    ∧ handleBackspace ("12") = ("1")
    ∧ handleBackspace ("sin(") = ("") := by
  have h := C5_amended ("12") ("12")
  refine ⟨h.1, ?_, h.2.2.2.2.2.2.2⟩
  have h7 := h.2.2.2.2.2.2.1 (by decide) (by decide)
  rw [h7]
  decide

/-- C6 (amended): operator collapsing applies exactly when the text ends in
one of the four glyphs `+ - × ÷` and the new operator token contains one of
those glyphs; `%` and `^` never trigger replacement and are appended.  On a
non-empty, non-error text whose last two characters are not both operator
glyphs, typing `+` then `-` yields a trailing `-` and never a trailing
`+-`. -/
theorem C6_amended (base op : String) (h1 : base ≠ ("")) (h2 : isErrLabel base = false) :
    (endsBinary base = true → containsBinary op = true →
      handleOperator base op = ⟨base.data.dropLast⟩ ++ op)
    ∧ (endsBinary base = true → containsBinary op = false →
      handleOperator base op = base ++ op)
    ∧ (lastTwoBinary base = false →
      sfxTok ((handleOperator (handleOperator base ("+")) ("-")).data) ([ '-']) = true
      ∧ sfxTok ((handleOperator (handleOperator base ("+")) ("-")).data) ([ '+', '-']) = false) := by
  refine ⟨?_, ?_, ?_⟩
  · intro h3 h4
    simp [handleOperator, h1, h2, h3, h4]
  · intro h3 h4
    simp [handleOperator, h1, h2, h3, h4]
  · intro h5
    obtain ⟨l⟩ := base
    rcases hrev : l.reverse with _ | ⟨a, w⟩
    · exfalso
      apply h1
      have : l = [] := List.reverse_eq_nil_iff.1 hrev
      rw [this]
    · have hl2 : l = w.reverse ++ [a] := by
        have hx := congrArg List.reverse hrev
        rw [List.reverse_reverse, List.reverse_cons] at hx
        exact hx
      subst hl2
      cases hba : binChar a with
      | true =>
        have e1 : endsBinary ⟨w.reverse ++ [a]⟩ = true := by
          unfold endsBinary
          rw [show (⟨w.reverse ++ [a]⟩ : String).data = w.reverse ++ [a] from rfl,
            List.reverse_append]
          exact hba
        have r1 : handleOperator ⟨w.reverse ++ [a]⟩ ("+") = ⟨w.reverse⟩ ++ ("+") := by
          simp [handleOperator, h1, h2, e1, show containsBinary ("+") = true from rfl,
            List.dropLast_concat]
        have e2 : isErrLabel ((⟨w.reverse⟩ : String) ++ ("+")) = false :=
          notErr_concat_plus w.reverse
        have e3 : endsBinary ((⟨w.reverse⟩ : String) ++ ("+")) = true := by
          unfold endsBinary
          rw [show ((⟨w.reverse⟩ : String) ++ ("+")).data = w.reverse ++ ([ '+']) from rfl,
            List.reverse_append]
          rfl
        have hne2 : (⟨w.reverse⟩ : String) ++ ("+") ≠ ("") := by
          intro hcon
          have hd := congrArg String.data hcon
          simp at hd
        have r2 : handleOperator ((⟨w.reverse⟩ : String) ++ ("+")) ("-")
            = ⟨w.reverse⟩ ++ ("-") := by
          simp only [handleOperator, e2, if_false, Bool.false_eq_true, ite_false]
          rw [if_neg (by intro hcon; exact hne2 hcon.1)]
          rw [if_pos (by rw [e3]; rfl)]
          rw [show ((⟨w.reverse⟩ : String) ++ ("+")).data = w.reverse ++ ([ '+']) from rfl,
            List.dropLast_concat]
        rw [r1, r2]
        constructor
        · rw [show ((⟨w.reverse⟩ : String) ++ ("-")).data = w.reverse ++ ([ '-']) from rfl,
            sfx_append]
          rfl
        · rw [show ((⟨w.reverse⟩ : String) ++ ("-")).data = w.reverse ++ ([ '-']) from rfl,
            sfx_append, List.reverse_reverse]
          cases w with
          | nil => rfl
          | cons b w2 =>
            have h5' : (binChar a && binChar b) = false := by
              unfold lastTwoBinary at h5
              rw [show (⟨(b :: w2).reverse ++ [a]⟩ : String).data = (b :: w2).reverse ++ [a]
                  from rfl, List.reverse_append, List.reverse_reverse] at h5
              exact h5
            rw [hba] at h5'
            simp only [Bool.true_and] at h5'
            have hbne : ('+' : Char) ≠ b := by
              intro hEq
              rw [← hEq] at h5'
              exact absurd h5' (by decide)
            show (decide (('+' : Char) = b) && true) = false
            rw [decide_eq_false hbne]
            rfl
      | false =>
        have e1 : endsBinary ⟨w.reverse ++ [a]⟩ = false := by
          unfold endsBinary
          rw [show (⟨w.reverse ++ [a]⟩ : String).data = w.reverse ++ [a] from rfl,
            List.reverse_append]
          exact hba
        have r1 : handleOperator ⟨w.reverse ++ [a]⟩ ("+")
            = ⟨w.reverse ++ [a]⟩ ++ ("+") := by
          simp [handleOperator, h1, h2, e1]
        have e2 : isErrLabel ((⟨w.reverse ++ [a]⟩ : String) ++ ("+")) = false :=
          notErr_concat_plus (w.reverse ++ [a])
        have e3 : endsBinary ((⟨w.reverse ++ [a]⟩ : String) ++ ("+")) = true := by
          unfold endsBinary
          rw [show ((⟨w.reverse ++ [a]⟩ : String) ++ ("+")).data
              = (w.reverse ++ [a]) ++ ([ '+']) from rfl, List.reverse_append]
          rfl
        have hne2 : (⟨w.reverse ++ [a]⟩ : String) ++ ("+") ≠ ("") := by
          intro hcon
          have hd := congrArg String.data hcon
          simp at hd
        have r2 : handleOperator ((⟨w.reverse ++ [a]⟩ : String) ++ ("+")) ("-")
            = ⟨w.reverse ++ [a]⟩ ++ ("-") := by
          simp only [handleOperator, e2, if_false, Bool.false_eq_true, ite_false]
          rw [if_neg (by intro hcon; exact hne2 hcon.1)]
          rw [if_pos (by rw [e3]; rfl)]
          rw [show ((⟨w.reverse ++ [a]⟩ : String) ++ ("+")).data
              = (w.reverse ++ [a]) ++ ([ '+']) from rfl, List.dropLast_concat]
        rw [r1, r2]
        constructor
        · rw [show ((⟨w.reverse ++ [a]⟩ : String) ++ ("-")).data
              = (w.reverse ++ [a]) ++ ([ '-']) from rfl, sfx_append]
          rfl
        · rw [show ((⟨w.reverse ++ [a]⟩ : String) ++ ("-")).data
              = (w.reverse ++ [a]) ++ ([ '-']) from rfl, sfx_append,
            List.reverse_append, List.reverse_reverse]
          have hane : ('+' : Char) ≠ a := by
            intro hEq
            rw [← hEq] at hba
            exact absurd hba (by decide)
          show (decide (('+' : Char) = a) && pfx [] ([] ++ w)) = false
          rw [decide_eq_false hane]
          rfl

/-- C6 witness: the amended collapsing behavior at concrete operator
presses. -/
theorem C6_witness :
    handleOperator ("1+") ("-") = ⟨("1+").data.dropLast⟩ ++ ("-")
    ∧ handleOperator ("1+") ("^") = ("1+") ++ ("^")
    ∧ sfxTok ((handleOperator (handleOperator ("1+") ("+")) ("-")).data) ([ '-']) = true
    ∧ sfxTok ((handleOperator (handleOperator ("1+") ("+")) ("-")).data) ([ '+', '-']) = false := by
  have h := C6_amended ("1+") ("-") (by decide) (by decide)
  have h' := C6_amended ("1+") ("^") (by decide) (by decide)
  exact ⟨h.1 (by decide) (by decide), h'.2.1 (by decide) (by decide),
    (h.2.2 (by decide)).1, (h.2.2 (by decide)).2⟩

/-- C1 (amended): the evaluation pipeline returns the DivideByZero label
exactly when the input is nonempty and its canonical form matches one of the
two structural patterns: a literal `/0` not followed by a dot (so `"1÷05"` IS
caught, unlike the claim's reading, while `"1÷0.5"` is not), or `/0.`
followed by zeros and then end-of-string or an operator.  `"1÷0"` and
`"5÷0.0"` are caught structurally; `"1÷(1-1)"` escapes the structural check,
evaluates to Infinity and is classified as Overflow. -/
theorem C1_amended (P : Prims) (u : AngleUnit) :
    (∀ s : String, calculate P u s = divZeroLabel ↔
      (s ≠ ("") ∧ divZeroPre (canonical s.data) = true))
    ∧ calculate P u ("1÷0") = divZeroLabel
    ∧ calculate P u ("5÷0.0") = divZeroLabel
    ∧ calculate P u ("1÷05") = divZeroLabel
    ∧ calculate P u ("1÷0.5") = ("2")
    ∧ calculate P u ("1÷(1-1)") = overflowLabel := by
  refine ⟨?_, by with_unfolding_all rfl, by with_unfolding_all rfl, by with_unfolding_all rfl,
    by with_unfolding_all rfl, by with_unfolding_all rfl⟩
  intro s
  constructor
  · intro h
    by_cases hs : s = ("")
    · exfalso
      rw [hs] at h
      exact absurd (show ("" : String) = divZeroLabel from h) (by decide)
    · refine ⟨hs, ?_⟩
      by_cases hz : divZeroPre (canonical s.data) = true
      · exact hz
      · exfalso
        unfold calculate at h
        rw [if_neg hs, if_neg hz] at h
        cases hev : evalCanonical P u (canonical s.data) with
        | error e =>
          rw [hev] at h
          exact absurd (show invalidFormatLabel = divZeroLabel from h) (by decide)
        | ok v =>
          cases v with
          | num q =>
            rw [hev] at h
            have h2 : fmtRat q = divZeroLabel := h
            have h3 := fmtRat_not_err q
            rw [h2] at h3
            exact absurd h3 (by decide)
          | inf =>
            rw [hev] at h
            exact absurd (show overflowLabel = divZeroLabel from h) (by decide)
          | negInf =>
            rw [hev] at h
            exact absurd (show overflowLabel = divZeroLabel from h) (by decide)
          | nan =>
            rw [hev] at h
            exact absurd (show invalidInputLabel = divZeroLabel from h) (by decide)
  · rintro ⟨hs, hz⟩
    unfold calculate
    rw [if_neg hs, if_pos hz]

/-- C1 witness: the amended characterization applied at the input `"7÷0"`. -/
theorem C1_witness : calculate defaultPrims AngleUnit.deg ("7÷0") = divZeroLabel :=
  ((C1_amended defaultPrims AngleUnit.deg).1 ("7÷0")).mpr ⟨by decide, by decide⟩

/-- With enough fuel, `natLog10` is the floor of the base-10 logarithm. -/
theorem natLog10_bounds : ∀ (f n : Nat), 1 ≤ n → n ≤ f →
    10 ^ (natLog10 f n) ≤ n ∧ n < 10 ^ (natLog10 f n + 1) := by
  intro f
  induction f with
  | zero => intro n h1 h2; omega
  | succ k ih =>
    intro n h1 h2
    by_cases hlt : n < 10
    · unfold natLog10
      rw [if_pos hlt]
      constructor
      · simpa using h1
      · simpa using hlt
    · push_neg at hlt
      have hd1 : 1 ≤ n / 10 := (Nat.one_le_div_iff (by norm_num)).2 hlt
      have hd2 : n / 10 ≤ k := by
        have := Nat.div_lt_self (by omega : 0 < n) (by norm_num : 1 < 10)
        omega
      obtain ⟨ih1, ih2⟩ := ih (n / 10) hd1 hd2
      unfold natLog10
      rw [if_neg (by omega)]
      constructor
      · calc 10 ^ (natLog10 k (n / 10) + 1) = 10 ^ natLog10 k (n / 10) * 10 := pow_succ 10 _
          _ ≤ (n / 10) * 10 := Nat.mul_le_mul_right 10 ih1
          _ ≤ n := Nat.div_mul_le_self n 10
      · have hmod := Nat.div_add_mod n 10
        have hlt2 : n < (n / 10 + 1) * 10 := by omega
        calc n < (n / 10 + 1) * 10 := hlt2
          _ ≤ 10 ^ (natLog10 k (n / 10) + 1) * 10 := Nat.mul_le_mul_right 10 (by omega)
          _ = 10 ^ (natLog10 k (n / 10) + 1 + 1) := (pow_succ 10 _).symm

/-- `log10N` is the floor of the base-10 logarithm of a positive natural. -/
theorem log10N_bounds (n : Nat) (h : 1 ≤ n) :
    10 ^ log10N n ≤ n ∧ n < 10 ^ (log10N n + 1) :=
  natLog10_bounds n n h le_rfl

/-- `qlog10` is the floor of the base-10 logarithm of a positive rational. -/
theorem qlog10_bounds (a : ℚ) (ha : 0 < a) :
    (10 : ℚ) ^ (qlog10 a) ≤ a ∧ a < (10 : ℚ) ^ (qlog10 a + 1) := by
  have hnum : 0 < a.num := Rat.num_pos.2 ha
  have hnn1 : 1 ≤ a.num.toNat := by omega
  have hden : 1 ≤ a.den := a.pos
  obtain ⟨hL1, hL2⟩ := log10N_bounds a.num.toNat hnn1
  obtain ⟨hM1, hM2⟩ := log10N_bounds a.den hden
  have hcast : ((a.num.toNat : ℚ)) = ((a.num : ℚ)) := by
    exact_mod_cast congrArg (fun z : ℤ => (z : ℚ)) (Int.toNat_of_nonneg hnum.le)
  have haeq : a = (a.num.toNat : ℚ) / (a.den : ℚ) := by
    rw [hcast]
    exact (Rat.num_div_den a).symm
  have hdenQ : (0 : ℚ) < (a.den : ℚ) := by exact_mod_cast hden
  have hnnQ : (0 : ℚ) < (a.num.toNat : ℚ) := by exact_mod_cast hnn1
  unfold qlog10
  set NN := a.num.toNat with hNN
  set D := a.den with hD
  set L := log10N NN with hL
  set M := log10N D with hM
  by_cases hcase : D * 10 ^ L ≤ NN * 10 ^ M
  · rw [if_pos hcase]
    constructor
    · rw [show ((L : ℤ)) - M = ((L : ℤ)) + (-(M : ℤ)) from by ring,
        zpow_add₀ (by norm_num : (10 : ℚ) ≠ 0), zpow_neg, zpow_natCast, zpow_natCast,
        ← div_eq_mul_inv, haeq, div_le_div_iff (by positivity) hdenQ, mul_comm]
      have hc : ((D * 10 ^ L : ℕ) : ℚ) ≤ ((NN * 10 ^ M : ℕ) : ℚ) := by exact_mod_cast hcase
      push_cast at hc
      exact hc
    · rw [show ((L : ℤ)) - M + 1 = (((L + 1 : ℕ) : ℤ)) + (-(M : ℤ)) from by push_cast; ring,
        zpow_add₀ (by norm_num : (10 : ℚ) ≠ 0), zpow_neg, zpow_natCast, zpow_natCast,
        ← div_eq_mul_inv, haeq, div_lt_div_iff hdenQ (by positivity)]
      calc (NN : ℚ) * 10 ^ M
          ≤ (NN : ℚ) * D := by
            apply mul_le_mul_of_nonneg_left _ (le_of_lt hnnQ)
            exact_mod_cast hM1
        _ < (10 : ℚ) ^ (L + 1) * D := by
            apply mul_lt_mul_of_pos_right _ hdenQ
            exact_mod_cast hL2
  · rw [if_neg hcase]
    push_neg at hcase
    constructor
    · rw [show ((L : ℤ)) - M - 1 = ((L : ℤ)) + (-((M + 1 : ℕ) : ℤ)) from by push_cast; ring,
        zpow_add₀ (by norm_num : (10 : ℚ) ≠ 0), zpow_neg, zpow_natCast, zpow_natCast,
        ← div_eq_mul_inv, haeq, div_le_div_iff (by positivity) hdenQ]
      calc (10 : ℚ) ^ L * D
          ≤ (NN : ℚ) * D := by
            apply mul_le_mul_of_nonneg_right _ (le_of_lt hdenQ)
            exact_mod_cast hL1
        _ ≤ (NN : ℚ) * 10 ^ (M + 1) := by
            apply mul_le_mul_of_nonneg_left _ (le_of_lt hnnQ)
            exact le_of_lt (by exact_mod_cast hM2)
    · rw [show ((L : ℤ)) - M - 1 + 1 = ((L : ℤ)) + (-(M : ℤ)) from by ring,
        zpow_add₀ (by norm_num : (10 : ℚ) ≠ 0), zpow_neg, zpow_natCast, zpow_natCast,
        ← div_eq_mul_inv, haeq, div_lt_div_iff hdenQ (by positivity), mul_comm ((10 : ℚ) ^ L)]
      have hc : ((NN * 10 ^ M : ℕ) : ℚ) < ((D * 10 ^ L : ℕ) : ℚ) := by exact_mod_cast hcase
      push_cast at hc
      exact hc

/-- The scaling step is multiplication by `10 ^ (11 - e)`. -/
theorem scaledBy_eq (a : ℚ) (e : ℤ) : scaledBy a e = a * (10 : ℚ) ^ ((11 : ℤ) - e) := by
  unfold scaledBy
  by_cases hp : 0 ≤ 11 - e
  · rw [if_pos hp, ← zpow_natCast (10 : ℚ) ((11 - e).toNat), Int.toNat_of_nonneg hp]
  · rw [if_neg hp, ← zpow_natCast (10 : ℚ) ((e - 11).toNat), Int.toNat_of_nonneg (by omega),
      div_eq_mul_inv, ← zpow_neg, show -(e - 11) = 11 - e from by ring]

/-- For a positive magnitude, the scaled value lies in `[10^11, 10^12)`. -/
theorem scaledBy_bounds (a : ℚ) (ha : 0 < a) :
    (10 : ℚ) ^ (11 : ℤ) ≤ scaledBy a (qlog10 a)
      ∧ scaledBy a (qlog10 a) < (10 : ℚ) ^ (12 : ℤ) := by
  obtain ⟨h1, h2⟩ := qlog10_bounds a ha
  rw [scaledBy_eq]
  have hpow : (0 : ℚ) < (10 : ℚ) ^ ((11 : ℤ) - qlog10 a) := zpow_pos (by norm_num) _
  constructor
  · calc (10 : ℚ) ^ (11 : ℤ)
        = (10 : ℚ) ^ (qlog10 a) * (10 : ℚ) ^ ((11 : ℤ) - qlog10 a) := by
          rw [← zpow_add₀ (by norm_num : (10 : ℚ) ≠ 0)]
          congr 1
          ring
      _ ≤ a * (10 : ℚ) ^ ((11 : ℤ) - qlog10 a) :=
          mul_le_mul_of_nonneg_right h1 (le_of_lt hpow)
  · calc a * (10 : ℚ) ^ ((11 : ℤ) - qlog10 a)
        < (10 : ℚ) ^ (qlog10 a + 1) * (10 : ℚ) ^ ((11 : ℤ) - qlog10 a) :=
          mul_lt_mul_of_pos_right h2 hpow
      _ = (10 : ℚ) ^ (12 : ℤ) := by
          rw [← zpow_add₀ (by norm_num : (10 : ℚ) ≠ 0)]
          congr 1
          ring

/-- For a positive magnitude, the rounded mantissa is positive and below
`10^12`. -/
theorem roundSigParts_bounds (a : ℚ) (ha : 0 < a) :
    0 < (roundSigParts a).1 ∧ (roundSigParts a).1 < 10 ^ 12 := by
  obtain ⟨hs1, hs2⟩ := scaledBy_bounds a ha
  rw [show ((11 : ℤ)) = (((11 : ℕ)) : ℤ) from rfl, zpow_natCast] at hs1
  rw [show ((12 : ℤ)) = (((12 : ℕ)) : ℤ) from rfl, zpow_natCast] at hs2
  have hf1 : ((10 : ℤ) ^ (11 : ℕ)) ≤ ⌊scaledBy a (qlog10 a) + 1 / 2⌋ := by
    apply Int.le_floor.2
    push_cast
    linarith
  have hf2 : ⌊scaledBy a (qlog10 a) + 1 / 2⌋ < (10 : ℤ) ^ (12 : ℕ) + 1 := by
    apply Int.floor_lt.2
    push_cast
    linarith
  rw [show ((10 : ℤ) ^ (11 : ℕ)) = 100000000000 from by norm_num] at hf1
  rw [show ((10 : ℤ) ^ (12 : ℕ)) = 1000000000000 from by norm_num] at hf2
  unfold roundSigParts
  by_cases hn : (⌊scaledBy a (qlog10 a) + 1 / 2⌋).toNat = 10 ^ 12
  · rw [if_pos hn]
    norm_num
  · rw [if_neg hn]
    rw [show ((10 : ℕ) ^ (12 : ℕ)) = 1000000000000 from by norm_num] at hn
    constructor
    · dsimp only
      omega
    · dsimp only
      rw [show ((10 : ℕ) ^ (12 : ℕ)) = 1000000000000 from by norm_num]
      omega

/-- Stripping trailing zeros preserves the value. -/
theorem stripTZ_mul : ∀ (f n : Nat), (stripTZ f n).1 * 10 ^ (stripTZ f n).2 = n := by
  intro f
  induction f with
  | zero => intro n; simp [stripTZ]
  | succ k ih =>
    intro n
    unfold stripTZ
    by_cases h : n ≠ 0 ∧ n % 10 = 0
    · rw [if_pos h]
      dsimp only
      rw [pow_succ, ← mul_assoc, ih (n / 10)]
      exact Nat.div_mul_cancel (Nat.dvd_of_mod_eq_zero h.2)
    · rw [if_neg h]
      simp

/-- With enough fuel, the stripped mantissa of a positive number has no
trailing zero. -/
theorem stripTZ_not_dvd : ∀ (f n : Nat), 0 < n → n ≤ f → ¬ 10 ∣ (stripTZ f n).1 := by
  intro f
  induction f with
  | zero => intro n h1 h2; omega
  | succ k ih =>
    intro n h1 h2
    unfold stripTZ
    by_cases h : n ≠ 0 ∧ n % 10 = 0
    · rw [if_pos h]
      dsimp only
      obtain ⟨hne, hmod⟩ := h
      apply ih (n / 10)
      · omega
      · have := Nat.div_lt_self (by omega : 0 < n) (by norm_num : 1 < 10)
        omega
    · rw [if_neg h]
      dsimp only
      push_neg at h
      intro hdvd
      have hmod : n % 10 ≠ 0 := h (by omega)
      omega

/-- C7: formatting snaps magnitudes below `1e-12` to exactly `"0"`; otherwise
the output is the signed decimal rendering of a mantissa of at most 12
digits with no trailing zero whose value is exactly the input rounded to 12
significant digits; and formatting is deterministic. -/
theorem C7_theorem (q : ℚ) :
    (|q| < 1 / 10 ^ 12 → fmtRat q = ("0"))
    ∧ (¬ |q| < 1 / 10 ^ 12 →
        ∃ m : Nat, ∃ p : ℤ, 0 < m ∧ m < 10 ^ 12 ∧ ¬ 10 ∣ m ∧
          fmtRat q = ⟨(if q < 0 then [ '-'] else []) ++ renderMP m p⟩ ∧
          (if q < 0 then (-1 : ℚ) else 1) * (m : ℚ) * (10 : ℚ) ^ p = roundSig12 q)
    ∧ (∀ q' : ℚ, q' = q → fmtRat q' = fmtRat q) := by
  refine ⟨?_, ?_, fun q' h => by rw [h]⟩
  · intro h
    unfold fmtRat
    rw [if_pos h]
  · intro h
    have ha : 0 < |q| := by
      have hp : (0 : ℚ) < 1 / 10 ^ 12 := by norm_num
      push_neg at h
      linarith
    obtain ⟨hn1, hn2⟩ := roundSigParts_bounds |q| ha
    have hmul := stripTZ_mul (roundSigParts |q|).1 (roundSigParts |q|).1
    refine ⟨(stripTZ (roundSigParts |q|).1 (roundSigParts |q|).1).1,
      (roundSigParts |q|).2 - 11 + ((stripTZ (roundSigParts |q|).1 (roundSigParts |q|).1).2 : ℤ),
      ?_, ?_, ?_, ?_, ?_⟩
    · by_contra h0
      push_neg at h0
      have hz : (stripTZ (roundSigParts |q|).1 (roundSigParts |q|).1).1 = 0 := by omega
      rw [hz] at hmul
      simp at hmul
      omega
    · have hle : (stripTZ (roundSigParts |q|).1 (roundSigParts |q|).1).1
          ≤ (roundSigParts |q|).1 := by
        conv_rhs => rw [← hmul]
        exact Nat.le_mul_of_pos_right _ (pow_pos (by norm_num) _)
      omega
    · exact stripTZ_not_dvd (roundSigParts |q|).1 (roundSigParts |q|).1 hn1 le_rfl
    · unfold fmtRat
      rw [if_neg h]
    · unfold roundSig12
      have hc : ((stripTZ (roundSigParts |q|).1 (roundSigParts |q|).1).1 : ℚ) *
          (10 : ℚ) ^ (((stripTZ (roundSigParts |q|).1 (roundSigParts |q|).1).2 : ℕ) : ℤ)
          = ((roundSigParts |q|).1 : ℚ) := by
        rw [zpow_natCast]
        exact_mod_cast hmul
      rw [show (roundSigParts |q|).2 - 11 +
            ((stripTZ (roundSigParts |q|).1 (roundSigParts |q|).1).2 : ℤ)
          = (((stripTZ (roundSigParts |q|).1 (roundSigParts |q|).1).2 : ℕ) : ℤ)
            + ((roundSigParts |q|).2 - 11) from by ring,
        zpow_add₀ (by norm_num : (10 : ℚ) ≠ 0), ← hc]
      ring

/-- C7 witness: the snap at `1 / 10^13` and the rounded rendering at `2`. -/
theorem C7_witness :
    fmtRat (1 / 10 ^ 13) = ("0")
    ∧ (∃ m : Nat, ∃ p : ℤ, 0 < m ∧ m < 10 ^ 12 ∧ ¬ 10 ∣ m ∧
        fmtRat 2 = ⟨(if (2 : ℚ) < 0 then [ '-'] else []) ++ renderMP m p⟩ ∧
        (if (2 : ℚ) < 0 then (-1 : ℚ) else 1) * (m : ℚ) * (10 : ℚ) ^ p = roundSig12 2) :=
  ⟨(C7_theorem (1 / 10 ^ 13)).1 (by with_unfolding_all decide),
   (C7_theorem 2).2.1 (by with_unfolding_all decide)⟩
